import Mathlib

/-!
Verification of the comment-classification core of `yt-comments-filter-be`.

Strings are modelled as `List Char`.  The embedding follows the Rust source:

* `normalize_fancy_text` (src/services/utils.rs): confusable substitution via a
  fixed table, NFKD decomposition (modelled char-wise by a finite table that is
  the identity off its domain; NFKD output chars are NFKD-invariant, which the
  table respects), removal of combining diacritics U+0300..U+036F, a filter
  keeping ASCII alphanumerics and Unicode whitespace, and lowercasing (after the
  filter only ASCII alphanumerics and whitespace remain, on which Unicode
  lowercasing is the ASCII map, as modelled).
* `hash_comment` (utils.rs): blake3 of the normalized text; the digest is an
  opaque parameter, since only its determinism is used by the program logic.
* `analyze_comment` (src/services/analyzer.rs): keyword-cache scan, provider
  call, response parsing for the two wire shapes, keyword-cache insertion.
* `analyze` (src/main.rs): result-cache lookup/insertion around
  `analyze_comment`, with the handler's lock/call events made explicit.
-/

/-- ASCII digit test, as Rust `char::is_ascii_digit`. -/
def isAsciiDigit (c : Char) : Bool := 48 ≤ c.toNat && c.toNat ≤ 57

/-- ASCII uppercase test, as Rust `char::is_ascii_uppercase`. -/
def isAsciiUpper (c : Char) : Bool := 65 ≤ c.toNat && c.toNat ≤ 90

/-- ASCII lowercase test, as Rust `char::is_ascii_lowercase`. -/
def isAsciiLower (c : Char) : Bool := 97 ≤ c.toNat && c.toNat ≤ 122

/-- ASCII alphanumeric test, as Rust `char::is_ascii_alphanumeric`. -/
def isAsciiAlnum (c : Char) : Bool := isAsciiDigit c || isAsciiUpper c || isAsciiLower c

/-- ASCII alphabetic test, as Rust `char::is_ascii_alphabetic`. -/
def isAsciiAlpha (c : Char) : Bool := isAsciiUpper c || isAsciiLower c

/-- Code points with the Unicode `White_Space` property, the set accepted by
Rust `char::is_whitespace`. -/
def whiteCodes : List Nat :=
  [0x9, 0xA, 0xB, 0xC, 0xD, 0x20, 0x85, 0xA0, 0x1680,
   0x2000, 0x2001, 0x2002, 0x2003, 0x2004, 0x2005, 0x2006, 0x2007, 0x2008,
   0x2009, 0x200A, 0x2028, 0x2029, 0x202F, 0x205F, 0x3000]

/-- Rust `char::is_whitespace`. -/
def isWhite (c : Char) : Bool := whiteCodes.contains c.toNat

/-- The combining-diacritics block U+0300..U+036F removed by
`normalize_fancy_text` (utils.rs line 71). -/
def isCombiningDiacritic (c : Char) : Bool := 0x300 ≤ c.toNat && c.toNat ≤ 0x36F

/-- Helper building one run of the `FANCY_MAP` table: consecutive code points
starting at `start` mapped to the listed ASCII targets. -/
def rangePairs (start : Nat) (targets : List Char) : List (Char × Char) :=
  ((List.range targets.length).zip targets).map
    (fun p => (Char.ofNat (start + p.1), p.2))

/-- The `FANCY_MAP` confusables table of utils.rs: negative-squared capitals
U+1F170.., mathematical sans-serif bold capitals U+1D5D4.., mathematical
monospace capitals U+1D670.., mathematical bold digits U+1D7CE.. (0..8),
Armenian U+0567/U+0585, parenthesized small letters U+249C.., and circled
small letters U+24D0... -/
def fancyPairs : List (Char × Char) :=
  rangePairs 0x1F170 "ABCDEFGHIJKLMNOPQRSTUVWXYZ".toList ++
  rangePairs 0x1D5D4 "ABCDEFGHIJKLMNOPQRSTUVWXYZ".toList ++
  rangePairs 0x1D670 "ABCDEFGHIJKLMNOPQRSTUVWXYZ".toList ++
  rangePairs 0x1D7CE "012345678".toList ++
  [(Char.ofNat 0x567, 't'), (Char.ofNat 0x585, 'o')] ++
  rangePairs 0x249C "abcdefghijklmnopqrstuvwxyz".toList ++
  rangePairs 0x24D0 "abcdefghijklmnopqrstuvwxyz".toList

/-- Association-list lookup, modelling `HashMap::get`. -/
def assoc {α β : Type} [DecidableEq α] : List (α × β) → α → Option β
  | [], _ => none
  | (k, v) :: t, a => if k = a then some v else assoc t a

/-- `FANCY_MAP.get(&c).unwrap_or(&c)` (utils.rs line 68). -/
def fancyChar (c : Char) : Char :=
  match assoc fancyPairs c with
  | some v => v
  | none => c

/-- Char-wise model of NFKD decomposition (`.nfkd()`, utils.rs line 70): a
finite decomposition table, identity elsewhere.  Every char in the image of
NFKD is NFKD-invariant, which the table respects (no char occurring in a value
is a key). -/
def nfkdPairs : List (Char × List Char) :=
  [(Char.ofNat 0xA0, [' ']),                 -- NO-BREAK SPACE → SPACE
   (Char.ofNat 0xE9, ['e', Char.ofNat 0x301]), -- é → e + COMBINING ACUTE
   (Char.ofNat 0x2460, ['1'])]               -- CIRCLED DIGIT ONE → 1

/-- NFKD of a single char under the table model. -/
def nfkdChar (c : Char) : List Char :=
  match assoc nfkdPairs c with
  | some v => v
  | none => [c]

/-- `flat_map(|c| c.to_lowercase())` (utils.rs line 73) restricted to the
post-filter domain (ASCII alphanumerics and whitespace), on which the Unicode
lowercase map is the single-char ASCII map. -/
def toLowerStr (c : Char) : List Char :=
  if isAsciiUpper c then [Char.ofNat (c.toNat + 32)] else [c]

/-- `normalize_fancy_text` (utils.rs lines 65-75): confusable substitution,
NFKD, diacritic removal, alphanumeric-or-whitespace filter, lowercasing. -/
def normalize_fancy_text (s : List Char) : List Char :=
  ((((s.map fancyChar).flatMap nfkdChar).filter
      (fun c => !isCombiningDiacritic c)).filter
      (fun c => isAsciiAlnum c || isWhite c)).flatMap toLowerStr

/-- `hash_comment` (utils.rs lines 80-83): blake3 hex digest of the normalized
text.  The digest function is an opaque parameter; the program relies only on
it being a fixed deterministic function of the normalized text. -/
def hash_comment (digest : List Char → List Char) (comment : List Char) : List Char :=
  digest (normalize_fancy_text comment)

/-! ### Basic facts about the lookup tables and the normalization pipeline -/

theorem assoc_mem {α β : Type} [DecidableEq α] {ps : List (α × β)} {c : α} {v : β}
    (h : assoc ps c = some v) : (c, v) ∈ ps := by
  induction ps with
  | nil => simp [assoc] at h
  | cons p t ih =>
    obtain ⟨k, w⟩ := p
    by_cases hk : k = c
    · subst hk
      simp only [assoc, if_true, eq_self_iff_true, if_pos] at h
      injection h with h
      subst h
      exact List.mem_cons_self _ _
    · rw [assoc, if_neg hk] at h
      exact List.mem_cons_of_mem _ (ih h)

theorem assoc_none_of_pred {α β : Type} [DecidableEq α] (P : α → Bool)
    {ps : List (α × β)} (hall : ∀ p ∈ ps, P p.1 = false) {c : α}
    (hc : P c = true) : assoc ps c = none := by
  induction ps with
  | nil => rfl
  | cons p t ih =>
    obtain ⟨k, v⟩ := p
    have hk := hall (k, v) (List.mem_cons_self _ _)
    by_cases he : k = c
    · subst he
      rw [hk] at hc
      exact absurd hc (by simp)
    · rw [assoc, if_neg he]
      exact ih (fun q hq => hall q (List.mem_cons_of_mem _ hq))

theorem toNat_ofNat_of_lt {n : Nat} (h : n < 55296) : (Char.ofNat n).toNat = n := by
  have hv : Nat.isValidChar n := Or.inl h
  rw [Char.ofNat, dif_pos hv]
  simp [Char.ofNatAux, Char.toNat, UInt32.toNat, BitVec.toNat_ofNatLt]

/-- A character that every stage of `normalize_fancy_text` leaves alone: not a
confusable, NFKD-invariant, not a combining diacritic, kept by the
alphanumeric-or-whitespace filter, and not uppercase. -/
def stableChar (c : Char) : Bool :=
  (assoc fancyPairs c).isNone && (assoc nfkdPairs c).isNone &&
    !isCombiningDiacritic c && (isAsciiAlnum c || isWhite c) && !isAsciiUpper c

/-- The predicate used by the alphanumeric-or-whitespace filter. -/
def alnumWhite (c : Char) : Bool := isAsciiAlnum c || isWhite c

set_option maxRecDepth 8192 in
theorem fancy_key_not_alnum_white :
    ∀ p ∈ fancyPairs, alnumWhite p.1 = false := by decide

theorem nfkd_key_not_lower : ∀ p ∈ nfkdPairs, isAsciiLower p.1 = false := by decide

theorem fancyChar_eq_self {c : Char} (h : assoc fancyPairs c = none) :
    fancyChar c = c := by
  simp [fancyChar, h]

theorem nfkdChar_eq_self {c : Char} (h : assoc nfkdPairs c = none) :
    nfkdChar c = [c] := by
  simp [nfkdChar, h]

theorem toLowerStr_eq_self {c : Char} (h : isAsciiUpper c = false) :
    toLowerStr c = [c] := by
  simp [toLowerStr, h]

theorem nfkd_img_not_key {a b : Char} (h : b ∈ nfkdChar a) :
    assoc nfkdPairs b = none := by
  have key : ∀ p ∈ nfkdPairs, ∀ d ∈ p.2, (assoc nfkdPairs d).isNone = true := by decide
  unfold nfkdChar at h
  cases ha : assoc nfkdPairs a with
  | none =>
    rw [ha] at h
    simp only [List.mem_singleton] at h
    subst h
    exact ha
  | some v =>
    rw [ha] at h
    exact Option.isNone_iff_eq_none.mp (key _ (assoc_mem ha) b h)

theorem filter_diac_cons {c : Char} {l : List Char}
    (h : isCombiningDiacritic c = false) :
    (c :: l).filter (fun d => !isCombiningDiacritic d) =
      c :: l.filter (fun d => !isCombiningDiacritic d) := by
  rw [List.filter_cons_of_pos]
  simp [h]

theorem filter_aw_cons {c : Char} {l : List Char}
    (h : (isAsciiAlnum c || isWhite c) = true) :
    (c :: l).filter (fun d => isAsciiAlnum d || isWhite d) =
      c :: l.filter (fun d => isAsciiAlnum d || isWhite d) := by
  rw [List.filter_cons_of_pos]
  exact h

/-- A list of stable characters is a fixed point of `normalize_fancy_text`. -/
theorem normalize_eq_of_stable {l : List Char} (h : ∀ c ∈ l, stableChar c = true) :
    normalize_fancy_text l = l := by
  induction l with
  | nil => rfl
  | cons c t ih =>
    have hc := h c (List.mem_cons_self c t)
    simp only [stableChar, Bool.and_eq_true, Bool.not_eq_true'] at hc
    obtain ⟨⟨⟨⟨hf, hn⟩, hd⟩, haw⟩, hu⟩ := hc
    have hf' : assoc fancyPairs c = none := Option.isNone_iff_eq_none.mp hf
    have hn' : assoc nfkdPairs c = none := Option.isNone_iff_eq_none.mp hn
    have ht := ih (fun d hd => h d (List.mem_cons_of_mem _ hd))
    simp only [normalize_fancy_text] at ht ⊢
    rw [List.map_cons, fancyChar_eq_self hf', List.flatMap_cons,
      nfkdChar_eq_self hn', List.singleton_append, filter_diac_cons hd,
      filter_aw_cons haw, List.flatMap_cons, toLowerStr_eq_self hu,
      List.singleton_append, ht]

/-- Every character produced by `normalize_fancy_text` is stable. -/
theorem mem_normalize_stable {l : List Char} {c : Char}
    (h : c ∈ normalize_fancy_text l) : stableChar c = true := by
  unfold normalize_fancy_text at h
  rw [List.mem_flatMap] at h
  obtain ⟨b, hb4, hcb⟩ := h
  rw [List.mem_filter] at hb4
  obtain ⟨hb3, haw⟩ := hb4
  rw [List.mem_filter] at hb3
  obtain ⟨hb2, hd⟩ := hb3
  rw [List.mem_flatMap] at hb2
  obtain ⟨a, _, hab⟩ := hb2
  have hbkey : assoc nfkdPairs b = none := nfkd_img_not_key hab
  have hd' : isCombiningDiacritic b = false := by
    simpa using hd
  unfold toLowerStr at hcb
  by_cases hu : isAsciiUpper b = true
  · rw [if_pos hu] at hcb
    simp only [List.mem_singleton] at hcb
    subst hcb
    have hb65 : 65 ≤ b.toNat ∧ b.toNat ≤ 90 := by
      simpa [isAsciiUpper, Bool.and_eq_true, decide_eq_true_eq] using hu
    have hcn : (Char.ofNat (b.toNat + 32)).toNat = b.toNat + 32 :=
      toNat_ofNat_of_lt (by omega)
    have hlow : isAsciiLower (Char.ofNat (b.toNat + 32)) = true := by
      simp only [isAsciiLower, hcn, Bool.and_eq_true, decide_eq_true_eq]
      omega
    simp only [stableChar, Bool.and_eq_true, Bool.not_eq_true']
    refine ⟨⟨⟨⟨?_, ?_⟩, ?_⟩, ?_⟩, ?_⟩
    · exact Option.isNone_iff_eq_none.mpr
        (assoc_none_of_pred alnumWhite fancy_key_not_alnum_white
          (by simp [alnumWhite, isAsciiAlnum, hlow]))
    · exact Option.isNone_iff_eq_none.mpr
        (assoc_none_of_pred isAsciiLower nfkd_key_not_lower hlow)
    · simp only [isCombiningDiacritic, hcn]
      simp only [Bool.and_eq_false_iff, decide_eq_false_iff_not]
      omega
    · simp [isAsciiAlnum, hlow]
    · simp only [isAsciiUpper, hcn]
      simp only [Bool.and_eq_false_iff, decide_eq_false_iff_not]
      omega
  · rw [if_neg hu] at hcb
    simp only [List.mem_singleton] at hcb
    subst hcb
    simp only [stableChar, Bool.and_eq_true, Bool.not_eq_true']
    refine ⟨⟨⟨⟨?_, ?_⟩, hd'⟩, haw⟩, by simpa using hu⟩
    · exact Option.isNone_iff_eq_none.mpr
        (assoc_none_of_pred alnumWhite fancy_key_not_alnum_white haw)
    · exact Option.isNone_iff_eq_none.mpr hbkey

/-- C8: Normalization is idempotent: for every input string x,
normalize(normalize(x)) equals normalize(x). -/
theorem C8_normalize_idempotent (s : List Char) :
    normalize_fancy_text (normalize_fancy_text s) = normalize_fancy_text s :=
  normalize_eq_of_stable (fun _ hc => mem_normalize_stable hc)

/-- C10: Character-set invariant of normalization: every character of the
output of `normalize_fancy_text` is an ASCII digit, a lowercase ASCII letter,
or a whitespace character; in particular the output never contains an
uppercase letter. -/
theorem C10_normalize_charset (s : List Char) (c : Char)
    (h : c ∈ normalize_fancy_text s) :
    (isAsciiDigit c || isAsciiLower c || isWhite c) = true ∧
      isAsciiUpper c = false := by
  have hs := mem_normalize_stable h
  simp only [stableChar, Bool.and_eq_true, Bool.not_eq_true'] at hs
  obtain ⟨⟨⟨⟨_, _⟩, _⟩, haw⟩, hu⟩ := hs
  refine ⟨?_, hu⟩
  simp only [isAsciiAlnum, hu, Bool.false_or] at haw
  simp only [Bool.or_eq_true] at haw ⊢
  tauto

/-- Witness for C10 at a concrete input: normalizing "A" yields the character
'a', which is in the allowed character set and not uppercase. -/
theorem C10_normalize_charset_witness :
    ('a' ∈ normalize_fancy_text ['A']) ∧
      ((isAsciiDigit 'a' || isAsciiLower 'a' || isWhite 'a') = true ∧
        isAsciiUpper 'a' = false) :=
  ⟨by decide, C10_normalize_charset ['A'] 'a' (by decide)⟩

/-! ### Provider-response parsing (src/services/analyzer.rs lines 133-185) -/

/-- Rust `str::split(',')`: the list of comma-separated fields, never empty. -/
def splitComma : List Char → List (List Char)
  | [] => [[]]
  | c :: t =>
    if c = ',' then [] :: splitComma t
    else
      match splitComma t with
      | [] => [[c]]
      | h :: r => (c :: h) :: r

/-- The numeric value of an ASCII digit. -/
def digitVal (c : Char) : Option Nat :=
  if isAsciiDigit c then some (c.toNat - 48) else none

def digitsToNatAux : List Char → Nat → Option Nat
  | [], acc => some acc
  | c :: t, acc =>
    match digitVal c with
    | some d => digitsToNatAux t (acc * 10 + d)
    | none => none

/-- The value of a nonempty all-digit string. -/
def digitsToNat (s : List Char) : Option Nat :=
  match s with
  | [] => none
  | _ => digitsToNatAux s 0

/-- Rust `str::parse::<i32>()`: optional sign, then a nonempty digit string,
within the i32 range. -/
def parseI32 (s : List Char) : Option Int :=
  match s with
  | '+' :: t => (digitsToNat t).bind
      (fun n => if n ≤ 2147483647 then some (n : Int) else none)
  | '-' :: t => (digitsToNat t).bind
      (fun n => if n ≤ 2147483648 then some (-(n : Int)) else none)
  | t => (digitsToNat t).bind
      (fun n => if n ≤ 2147483647 then some (n : Int) else none)

/-- Splits at the first dot: the part before it and, when a dot occurs, the
part after it. -/
def splitDot : List Char → List Char × Option (List Char)
  | [] => ([], none)
  | c :: t =>
    if c = '.' then ([], some t)
    else
      match splitDot t with
      | (a, r) => (c :: a, r)

/-- Rust `str::parse::<f64>()`, modelled on its finite-decimal fragment
(optional sign, digits with an optional fractional part, as in the provider
contract "0.95"); the parsed value is represented exactly as a rational.
Exponent and inf/nan forms are outside the modelled fragment. -/
def parseDecQ (s : List Char) : Option ℚ :=
  let core : List Char → Option ℚ := fun t =>
    match splitDot t with
    | (ip, none) => (digitsToNat ip).map (fun n => (n : ℚ))
    | (ip, some fp) =>
      match ip, fp with
      | [], [] => none
      | [], f => (digitsToNat f).map (fun m => (m : ℚ) / (10 : ℚ) ^ f.length)
      | i, [] => (digitsToNat i).map (fun n => (n : ℚ))
      | i, f => (digitsToNat i).bind
          (fun n => (digitsToNat f).map
            (fun m => (n : ℚ) + (m : ℚ) / (10 : ℚ) ^ f.length))
  match s with
  | '+' :: t => core t
  | '-' :: t => (core t).map Neg.neg
  | t => core t

/-- The failure cases of `analyze_comment`, one per distinct `CustomError`
message in the source: `transport` for a reqwest error, `decodeErr` for a
serde_json decoding error, `invalidResponseFormat` for "Invalid response
format", `emptyResponse` for "No candidates/choices found in response",
`invalidContentFormat` for "Invalid content format", `invalidSpamValue` for
"Invalid spam value", and `invalidConfidenceValue` for "Invalid confidence
value". -/
inductive CustomErr : Type
  | transport
  | decodeErr
  | invalidResponseFormat
  | emptyResponse
  | invalidContentFormat
  | invalidSpamValue
  | invalidConfidenceValue
deriving DecidableEq, Repr

/-- `AnalyzeResponse` (analyzer.rs lines 26-30); the confidence is an f64 in
the source, carried here exactly as a rational. -/
structure AnalyzeResponse : Type where
  spam : Bool
  keyword : List Char
  confidence : ℚ
deriving DecidableEq, Repr

/-- Decoded JSON values, the result of `serde_json::from_str`. -/
inductive Json : Type
  | null
  | bool (b : Bool)
  | num (q : ℚ)
  | str (s : List Char)
  | arr (elems : List Json)
  | obj (fields : List (List Char × Json))

/-- `serde_json` `value[key]`: the field's value in an object, `Null` for a
missing field or a non-object. -/
def Json.getKey : Json → List Char → Json
  | .obj fs, k =>
    match assoc fs k with
    | some v => v
    | none => .null
  | _, _ => .null

/-- `serde_json` `value[i]`: the i-th element of an array, `Null` when out of
bounds or not an array. -/
def Json.getIdx : Json → Nat → Json
  | .arr xs, i => xs.getD i .null
  | _, _ => .null

/-- `Value::as_array`. -/
def Json.asArr : Json → Option (List Json)
  | .arr xs => some xs
  | _ => none

/-- `Value::as_str`. -/
def Json.asStr : Json → Option (List Char)
  | .str s => some s
  | _ => none

/-- The comma-separated content parse shared by both provider branches
(analyzer.rs lines 149-157 and 165-173, with the `spam == 1` conversion of
line 182): exactly three fields, field 0 an i32 spam flag, field 1 the
keyword, field 2 an f64 confidence. -/
def parseContent (content : List Char) : Except CustomErr AnalyzeResponse :=
  let parts := splitComma content
  if parts.length ≠ 3 then .error .invalidContentFormat
  else
    match parseI32 (parts.getD 0 []) with
    | none => .error .invalidSpamValue
    | some spam =>
      match parseDecQ (parts.getD 2 []) with
      | none => .error .invalidConfidenceValue
      | some confidence => .ok ⟨spam == 1, parts.getD 1 [], confidence⟩

/-- The Gemini (Shape B) branch (analyzer.rs lines 143-157).  On the source's
line 148, `Option::replace("\n")` on the temporary returned by `as_str()`
returns the previous contents of that option, so the intended newline removal
is a no-op and the text is used as-is. -/
def geminiParse (j : Json) : Except CustomErr AnalyzeResponse :=
  match (j.getKey ("candidates".toList)).asArr with
  | none => .error .invalidResponseFormat
  | some cs =>
    if cs.isEmpty then .error .emptyResponse
    else
      match ((((cs.headD .null).getKey ("content".toList)).getKey
          ("parts".toList)).getIdx 0).getKey ("text".toList) |>.asStr with
      | none => .error .invalidContentFormat
      | some content => parseContent content

/-- The DeepSeek (Shape A) branch (analyzer.rs lines 158-173). -/
def deepseekParse (j : Json) : Except CustomErr AnalyzeResponse :=
  match (j.getKey ("choices".toList)).asArr with
  | none => .error .invalidResponseFormat
  | some cs =>
    if cs.isEmpty then .error .emptyResponse
    else
      match (((cs.headD .null).getKey ("message".toList)).getKey
          ("content".toList)).asStr with
      | none => .error .invalidContentFormat
      | some content => parseContent content

/-- The provider selected by `AI_SERVICE` at startup. -/
inductive Service : Type
  | gemini
  | deepseek
deriving DecidableEq, Repr

/-- The `AI_SERVICE == "gemini"` branch selection of analyzer.rs. -/
def parseResponse (svc : Service) (j : Json) : Except CustomErr AnalyzeResponse :=
  match svc with
  | .gemini => geminiParse j
  | .deepseek => deepseekParse j

deriving instance DecidableEq for Except

/-! ### The keyword-cache scan and `analyze_comment` (analyzer.rs) -/

/-- `remove_all_whitespace` (analyzer.rs lines 71-73). -/
def remove_all_whitespace (s : List Char) : List Char :=
  s.filter (fun c => !isWhite c)

/-- Rust `char` uppercasing as used by `String::to_uppercase`, modelled on the
ASCII fragment (single-char mapping, identity off ASCII letters). -/
def upperChar (c : Char) : List Char :=
  if isAsciiLower c then [Char.ofNat (c.toNat - 32)] else [c]

/-- `String::to_uppercase` (analyzer.rs line 90), ASCII fragment. -/
def toUpperStr (s : List Char) : List Char := s.flatMap upperChar

/-- Whether `pat` occurs at the start of `l`. -/
def leadsWith : List Char → List Char → Bool
  | [], _ => true
  | _ :: _, [] => false
  | a :: t1, b :: t2 => a == b && leadsWith t1 t2

/-- Rust `str::contains(&str)`: substring containment. -/
def containsSub (hay pat : List Char) : Bool :=
  match hay with
  | [] => pat.isEmpty
  | _ :: t => leadsWith pat hay || containsSub t pat

/-- The `KEYWORD_CACHE` scan of analyzer.rs lines 80-98: the first entry whose
upper-cased keyword is a substring of the whitespace-stripped normalized
comment.  The cache is a `HashMap` with unspecified iteration order; the list
models one iteration order. -/
def firstHit : List (List Char × ℚ) → List Char → Option (List Char × ℚ)
  | [], _ => none
  | (k, conf) :: t, san =>
    if containsSub san (toUpperStr k) then some (k, conf) else firstHit t san

/-- `HashMap::insert`: replaces any previous binding of the key. -/
def insertAssoc {β : Type} (k : List Char) (v : β)
    (l : List (List Char × β)) : List (List Char × β) :=
  (k, v) :: l.filter (fun p => p.1 ≠ k)

/-- The parse-and-record tail of `analyze_comment` (analyzer.rs lines
133-185): parse the provider payload; on success record the returned keyword
and confidence in the keyword cache. -/
def afterCall (svc : Service) (payload : Json)
    (kwCache : List (List Char × ℚ)) :
    Except CustomErr AnalyzeResponse × List (List Char × ℚ) × Bool :=
  match parseResponse svc payload with
  | .error e => (.error e, kwCache, true)
  | .ok resp => (.ok resp, insertAssoc resp.keyword resp.confidence kwCache, true)

/-- The scan-missed path of `analyze_comment`: await the provider call, then
parse (`afterCall`). -/
def afterScan (svc : Service) (provider : Except CustomErr Json)
    (kwCache : List (List Char × ℚ)) :
    Except CustomErr AnalyzeResponse × List (List Char × ℚ) × Bool :=
  match provider with
  | .error e => (.error e, kwCache, true)
  | .ok payload => afterCall svc payload kwCache

/-- `analyze_comment` (analyzer.rs lines 75-186).  The outcome of the network
call is the `provider` argument (payload or transport failure); the Bool
records whether the provider was invoked.  On a keyword-cache hit the function
returns a synthesized spam response without calling the provider; otherwise it
proceeds to the provider call and parse. -/
def analyze_comment (svc : Service) (provider : Except CustomErr Json)
    (kwCache : List (List Char × ℚ)) (comment : List Char) :
    Except CustomErr AnalyzeResponse × List (List Char × ℚ) × Bool :=
  let normalized := normalize_fancy_text comment
  let sanitized := remove_all_whitespace normalized
  match firstHit kwCache sanitized with
  | some (k, conf) => (.ok ⟨true, k, conf⟩, kwCache, false)
  | none => afterScan svc provider kwCache

/-! ### The `/analyze` handler (src/main.rs lines 60-86) -/

/-- The observable events of one run of the handler: acquiring and releasing
the `AppState.cache` mutex, reading it, awaiting the provider call, and
inserting into it. -/
inductive Ev : Type
  | lockAcquire
  | cacheGet
  | provCall
  | cacheInsert
  | lockRelease
deriving DecidableEq, Repr

/-- The shared state of main.rs: the result cache (`AppState.cache`) and the
keyword cache (`KEYWORD_CACHE` of analyzer.rs). -/
structure ServerState : Type where
  resultCache : List (List Char × AnalyzeResponse)
  kwCache : List (List Char × ℚ)
deriving DecidableEq, Repr

/-- The `analyze` handler (main.rs lines 60-86): lock the cache mutex, look up
the comment hash, on a hit return the cached response; on a miss run
`analyze_comment` (awaiting it while the guard is still alive) and insert a
successful response into the result cache keyed by the comment hash.  The
event list records the handler's lock operations, cache accesses and provider
call in program order: in the source the `MutexGuard` from line 63 is dropped
only when the handler returns, which is after the awaited call of lines
71-73. -/
def analyze (svc : Service) (digest : List Char → List Char)
    (provider : Except CustomErr Json) (st : ServerState) (comment : List Char) :
    Except CustomErr AnalyzeResponse × ServerState × Bool × List Ev :=
  match assoc st.resultCache (hash_comment digest comment) with
  | some r => (.ok r, st, false, [.lockAcquire, .cacheGet, .lockRelease])
  | none =>
    match analyze_comment svc provider st.kwCache comment with
    | (.ok resp, kw2, called) =>
      (.ok resp,
        ⟨insertAssoc (hash_comment digest comment) resp st.resultCache, kw2⟩,
        called,
        [Ev.lockAcquire, Ev.cacheGet] ++ (if called then [Ev.provCall] else [])
          ++ [Ev.cacheInsert, Ev.lockRelease])
    | (.error e, kw2, called) =>
      (.error e, ⟨st.resultCache, kw2⟩, called,
        [Ev.lockAcquire, Ev.cacheGet] ++ (if called then [Ev.provCall] else [])
          ++ [Ev.lockRelease])

/-- Walks an event list tracking whether the cache lock is held and checks
that every provider-call event happens while it is held. -/
def callsWhileHeld : List Ev → Bool → Bool
  | [], _ => true
  | .lockAcquire :: t, _ => callsWhileHeld t true
  | .lockRelease :: t, _ => callsWhileHeld t false
  | .provCall :: t, held => held && callsWhileHeld t held
  | .cacheGet :: t, held => callsWhileHeld t held
  | .cacheInsert :: t, held => callsWhileHeld t held

/-! ### Claim C5: cache-hit short-circuit -/

/-- C5: Cache hit short-circuit: for every comment whose fingerprint is
already present in the ResultCache, the classification entry point returns
the cached ClassificationResult unchanged, does not invoke the provider, and
leaves the state unchanged. -/
theorem C5_cache_hit_short_circuit (svc : Service) (digest : List Char → List Char)
    (provider : Except CustomErr Json) (st : ServerState) (comment : List Char)
    (r : AnalyzeResponse)
    (h : assoc st.resultCache (hash_comment digest comment) = some r) :
    analyze svc digest provider st comment
      = (.ok r, st, false, [.lockAcquire, .cacheGet, .lockRelease]) := by
  unfold analyze
  rw [h]

/-- Witness for C5: a result cache holding an entry for the fingerprint of
"abc" makes the handler return that entry with no provider call. -/
theorem C5_cache_hit_witness :
    assoc ([(("abc".toList), (⟨false, [], 0⟩ : AnalyzeResponse))])
        (hash_comment id ("abc".toList)) = some ⟨false, [], 0⟩ ∧
    analyze .deepseek id (.error .transport)
        ⟨[(("abc".toList), ⟨false, [], 0⟩)], []⟩ ("abc".toList)
      = (.ok ⟨false, [], 0⟩, ⟨[(("abc".toList), ⟨false, [], 0⟩)], []⟩, false,
         [.lockAcquire, .cacheGet, .lockRelease]) :=
  ⟨rfl, C5_cache_hit_short_circuit _ _ _ _ _ _ rfl⟩

/-! ### Claim C2: frame condition of a keyword-index hit -/

/-- C2 counterexample: with an empty result cache, a keyword cache holding
("123", 9/10) and the comment "123", the keyword scan hits (no provider
call), yet the handler inserts the synthesized result into the result cache
keyed by the comment's fingerprint — the ResultCache is not left unchanged. -/
theorem C2_keyword_hit_writes_result_cache_cex :
    (analyze .deepseek id (.error .transport)
        ⟨[], [("123".toList, (9 : ℚ)/10)]⟩ ("123".toList)).2.2.1 = false ∧
    ¬ ((analyze .deepseek id (.error .transport)
        ⟨[], [("123".toList, (9 : ℚ)/10)]⟩ ("123".toList)).2.1.resultCache
      = ([] : List (List Char × AnalyzeResponse))) := by
  constructor
  · rfl
  · have he : (analyze .deepseek id (.error .transport)
        ⟨[], [("123".toList, (9 : ℚ)/10)]⟩ ("123".toList)).2.1.resultCache
        = [(("123".toList), ⟨true, "123".toList, (9 : ℚ)/10⟩)] := rfl
    rw [he]
    simp

/-- C2 amended: on a keyword-index hit the provider is not invoked and the
keyword cache is unchanged, but the handler does insert the synthesized
result into the ResultCache keyed by the comment's fingerprint. -/
theorem C2_keyword_hit_frame_amended (svc : Service)
    (digest : List Char → List Char) (provider : Except CustomErr Json)
    (st : ServerState) (comment : List Char) (k : List Char) (conf : ℚ)
    (hmiss : assoc st.resultCache (hash_comment digest comment) = none)
    (hhit : firstHit st.kwCache
      (remove_all_whitespace (normalize_fancy_text comment)) = some (k, conf)) :
    analyze svc digest provider st comment
      = (.ok ⟨true, k, conf⟩,
         ⟨insertAssoc (hash_comment digest comment) ⟨true, k, conf⟩
            st.resultCache, st.kwCache⟩,
         false, [.lockAcquire, .cacheGet, .cacheInsert, .lockRelease]) := by
  unfold analyze
  rw [hmiss]
  simp only [analyze_comment]
  rw [hhit]
  rfl

/-- Witness for C2's amended theorem at the counterexample input. -/
theorem C2_keyword_hit_frame_witness :
    analyze .deepseek id (.error .transport)
        ⟨[], [("123".toList, (9 : ℚ)/10)]⟩ ("123".toList)
      = (.ok ⟨true, "123".toList, (9 : ℚ)/10⟩,
         ⟨insertAssoc (hash_comment id ("123".toList))
            ⟨true, "123".toList, (9 : ℚ)/10⟩ [], [("123".toList, (9 : ℚ)/10)]⟩,
         false, [.lockAcquire, .cacheGet, .cacheInsert, .lockRelease]) :=
  C2_keyword_hit_frame_amended _ _ _ _ _ _ _ rfl rfl

/-! ### Claim C7: failure atomicity and malformed-content rejection -/

/-- A failing parse leaves the keyword cache unchanged. -/
theorem afterCall_error_frame (svc : Service) (payload : Json)
    (kws : List (List Char × ℚ)) (e : CustomErr)
    (h : (afterCall svc payload kws).1 = .error e) :
    (afterCall svc payload kws).2.1 = kws := by
  unfold afterCall at h ⊢
  cases hp : parseResponse svc payload with
  | error e' => rfl
  | ok resp =>
    rw [hp] at h
    simp at h

/-- A failing provider call or parse leaves the keyword cache unchanged. -/
theorem afterScan_error_frame (svc : Service)
    (provider : Except CustomErr Json) (kws : List (List Char × ℚ))
    (e : CustomErr) (h : (afterScan svc provider kws).1 = .error e) :
    (afterScan svc provider kws).2.1 = kws := by
  cases provider with
  | error e' => rfl
  | ok payload => exact afterCall_error_frame svc payload kws e h

/-- A failing `analyze_comment` leaves the keyword cache unchanged: the only
insertion (analyzer.rs lines 178-179) happens after a fully successful
parse. -/
theorem analyze_comment_error_frame (svc : Service)
    (provider : Except CustomErr Json) (kws : List (List Char × ℚ))
    (comment : List Char) (e : CustomErr)
    (h : (analyze_comment svc provider kws comment).1 = .error e) :
    (analyze_comment svc provider kws comment).2.1 = kws := by
  simp only [analyze_comment] at h ⊢
  cases hfh : firstHit kws (remove_all_whitespace (normalize_fancy_text comment)) with
  | some p =>
    obtain ⟨k, conf⟩ := p
    rfl
  | none =>
    rw [hfh] at h
    exact afterScan_error_frame svc provider kws e h

/-- C7: for every provider payload whose extracted content does not split on
commas into exactly three fields the parse is a typed `invalidContentFormat`
failure (concretely so for "1,ONLYTWO"), and every failing classification
leaves the whole server state — ResultCache and KeywordIndex — unchanged. -/
theorem C7_failure_atomicity :
    (∀ content : List Char, (splitComma content).length ≠ 3 →
      parseContent content = .error .invalidContentFormat) ∧
    parseContent ("1,ONLYTWO".toList) = .error .invalidContentFormat ∧
    (∀ (svc : Service) (digest : List Char → List Char)
        (provider : Except CustomErr Json) (st : ServerState)
        (comment : List Char) (e : CustomErr),
      (analyze svc digest provider st comment).1 = .error e →
      (analyze svc digest provider st comment).2.1 = st) := by
  refine ⟨?_, rfl, ?_⟩
  · intro content hlen
    simp only [parseContent]
    rw [if_pos hlen]
  · intro svc digest provider st comment e h
    unfold analyze at h ⊢
    cases ha : assoc st.resultCache (hash_comment digest comment) with
    | some r => rfl
    | none =>
      rw [ha] at h
      cases hac : analyze_comment svc provider st.kwCache comment with
      | mk res rest =>
        obtain ⟨kw2, called⟩ := rest
        cases res with
        | ok resp =>
          rw [hac] at h
          simp at h
        | error e' =>
          have h1 : (analyze_comment svc provider st.kwCache comment).1
              = .error e' := by rw [hac]
          have h2 := analyze_comment_error_frame svc provider st.kwCache
            comment e' h1
          rw [hac] at h2
          simp only at h2
          subst h2
          rfl

/-- Witness for C7's universally quantified parts: the two-field content
"1,ONLYTWO" has field count 2, and a transport failure leaves a fresh state
unchanged. -/
theorem C7_failure_atomicity_witness :
    parseContent ("1,ONLYTWO".toList) = .error .invalidContentFormat ∧
    (analyze .deepseek id (.error .transport) ⟨[], []⟩ ['x']).2.1
      = (⟨[], []⟩ : ServerState) :=
  ⟨(C7_failure_atomicity.1 ("1,ONLYTWO".toList) (by decide)),
   C7_failure_atomicity.2.2 .deepseek id (.error .transport) ⟨[], []⟩ ['x']
     .transport rfl⟩

/-! ### Claim C6: spam-flag parsing -/

theorem splitComma_append {f : List Char} (hf : ',' ∉ f) (r : List Char) :
    splitComma (f ++ ',' :: r) = f :: splitComma r := by
  induction f with
  | nil => simp [splitComma]
  | cons c t ih =>
    have hc : ¬(c = ',') := fun hcc => hf (hcc ▸ List.mem_cons_self c t)
    have ih' := ih (fun hm => hf (List.mem_cons_of_mem _ hm))
    simp only [List.cons_append, splitComma, if_neg hc, List.append_eq]
    rw [ih']

theorem splitComma_no_comma {f : List Char} (hf : ',' ∉ f) :
    splitComma f = [f] := by
  induction f with
  | nil => rfl
  | cons c t ih =>
    have hc : ¬(c = ',') := fun hcc => hf (hcc ▸ List.mem_cons_self c t)
    have ih' := ih (fun hm => hf (List.mem_cons_of_mem _ hm))
    simp only [splitComma, if_neg hc]
    rw [ih']

/-- Evaluation of `parseContent` on a well-formed three-field content
string. -/
theorem parseContent_fields (f0 f1 f2 : List Char)
    (h0 : ',' ∉ f0) (h1 : ',' ∉ f1) (h2 : ',' ∉ f2) :
    parseContent (f0 ++ ',' :: (f1 ++ ',' :: f2))
      = (match parseI32 f0 with
         | none => .error .invalidSpamValue
         | some n =>
           match parseDecQ f2 with
           | none => .error .invalidConfidenceValue
           | some q => .ok ⟨n == 1, f1, q⟩) := by
  have hs : splitComma (f0 ++ ',' :: (f1 ++ ',' :: f2)) = [f0, f1, f2] := by
    rw [splitComma_append h0, splitComma_append h1, splitComma_no_comma h2]
  simp only [parseContent, hs]
  rfl

/-- C6: on a well-formed three-field content string, field 0 is parsed as an
integer spam flag: a non-integer field 0 is an `invalidSpamValue` failure
(never coerced to a boolean), and an integer field 0 yields a successful
parse whose spam flag is true exactly when the integer is 1. -/
theorem C6_spam_flag_parsing (f0 f1 f2 : List Char)
    (h0 : ',' ∉ f0) (h1 : ',' ∉ f1) (h2 : ',' ∉ f2) :
    (parseI32 f0 = none →
      parseContent (f0 ++ ',' :: (f1 ++ ',' :: f2))
        = .error .invalidSpamValue) ∧
    (∀ n : Int, parseI32 f0 = some n → ∀ q : ℚ, parseDecQ f2 = some q →
      parseContent (f0 ++ ',' :: (f1 ++ ',' :: f2))
        = .ok ⟨n == 1, f1, q⟩) := by
  constructor
  · intro hn
    rw [parseContent_fields f0 f1 f2 h0 h1 h2, hn]
  · intro n hn q hq
    rw [parseContent_fields f0 f1 f2 h0 h1 h2, hn, hq]

theorem parseDecQ_05 : parseDecQ ("0.5".toList) = some ((1 : ℚ)/2) := by
  have h : parseDecQ ("0.5".toList)
      = some ((Nat.cast 0 : ℚ) + (Nat.cast 5 : ℚ) / (10 : ℚ) ^ (1 : ℕ)) := rfl
  rw [h]
  norm_num

theorem parseDecQ_010 : parseDecQ ("0.10".toList) = some ((1 : ℚ)/10) := by
  have h : parseDecQ ("0.10".toList)
      = some ((Nat.cast 0 : ℚ) + (Nat.cast 10 : ℚ) / (10 : ℚ) ^ (2 : ℕ)) := rfl
  rw [h]
  norm_num

/-- Witness for C6: "1,GIFT,0.5" parses with spam = true, and a non-integer
spam field "x" is rejected as `invalidSpamValue`. -/
theorem C6_spam_flag_witness :
    parseContent (("1".toList) ++ ',' :: (("GIFT".toList) ++ ',' :: ("0.5".toList)))
      = .ok ⟨true, "GIFT".toList, (1 : ℚ)/2⟩ ∧
    parseContent (("x".toList) ++ ',' :: (("GIFT".toList) ++ ',' :: ("0.5".toList)))
      = .error .invalidSpamValue :=
  ⟨(C6_spam_flag_parsing ("1".toList) ("GIFT".toList) ("0.5".toList)
      (by decide) (by decide) (by decide)).2 1 rfl ((1 : ℚ)/2) parseDecQ_05,
   (C6_spam_flag_parsing ("x".toList) ("GIFT".toList) ("0.5".toList)
      (by decide) (by decide) (by decide)).1 rfl⟩

/-! ### Claim C9: parser Shape B scenario -/

/-- The decoded form of the Shape-B payload
`{"candidates":[{"content":{"parts":[{"text":"0,NONE,0.10"}]}}]}`. -/
def c9payload : Json :=
  .obj [(("candidates".toList),
    .arr [.obj [(("content".toList),
      .obj [(("parts".toList),
        .arr [.obj [(("text".toList), .str ("0,NONE,0.10".toList))]])])]])]

/-- C9: under the Shape-B (Gemini) configuration, the payload
`{"candidates":[{"content":{"parts":[{"text":"0,NONE,0.10"}]}}]}` parses
successfully to `{is_spam: false, keyword: "NONE", confidence: 0.10}`. -/
theorem C9_shape_b_scenario :
    geminiParse c9payload = .ok ⟨false, "NONE".toList, (1 : ℚ)/10⟩ := by
  have h1 : geminiParse c9payload
      = parseContent (("0".toList) ++ ',' :: (("NONE".toList) ++ ',' :: ("0.10".toList))) := rfl
  rw [h1, parseContent_fields _ _ _ (by decide) (by decide) (by decide),
    show parseI32 ("0".toList) = some 0 from rfl, parseDecQ_010]
  rfl

/-! ### Claim C1: the keyword short-circuit -/

theorem leadsWith_mem {pat l : List Char} (h : leadsWith pat l = true) :
    ∀ c ∈ pat, c ∈ l := by
  induction pat generalizing l with
  | nil =>
    intro c hc
    simp at hc
  | cons a t ih =>
    cases l with
    | nil => simp [leadsWith] at h
    | cons b t2 =>
      simp only [leadsWith, Bool.and_eq_true, beq_iff_eq] at h
      obtain ⟨hab, ht⟩ := h
      intro c hc
      rcases List.mem_cons.mp hc with hc | hc
      · subst hc
        subst hab
        exact List.mem_cons_self _ _
      · exact List.mem_cons_of_mem _ (ih ht c hc)

theorem containsSub_mem {hay pat : List Char} (h : containsSub hay pat = true) :
    ∀ c ∈ pat, c ∈ hay := by
  induction hay with
  | nil =>
    intro c hc
    simp only [containsSub, List.isEmpty_iff] at h
    subst h
    simp at hc
  | cons b t ih =>
    simp only [containsSub, Bool.or_eq_true] at h
    intro c hc
    rcases h with h | h
    · exact leadsWith_mem h c hc
    · exact List.mem_cons_of_mem _ (ih h c hc)

/-- Upper-casing a letter yields an uppercase letter. -/
theorem upperChar_upper {c : Char} (h : isAsciiAlpha c = true) :
    ∃ d ∈ upperChar c, isAsciiUpper d = true := by
  unfold upperChar
  simp only [isAsciiAlpha, Bool.or_eq_true] at h
  rcases h with h | h
  · have hl : isAsciiLower c = false := by
      simp only [isAsciiUpper, Bool.and_eq_true, decide_eq_true_eq] at h
      simp only [isAsciiLower, Bool.and_eq_false_iff, decide_eq_false_iff_not]
      omega
    rw [if_neg (by simp [hl])]
    exact ⟨c, by simp, h⟩
  · rw [if_pos h]
    have hb : 97 ≤ c.toNat ∧ c.toNat ≤ 122 := by
      simpa [isAsciiLower, Bool.and_eq_true, decide_eq_true_eq] using h
    have hcn : (Char.ofNat (c.toNat - 32)).toNat = c.toNat - 32 :=
      toNat_ofNat_of_lt (by omega)
    refine ⟨Char.ofNat (c.toNat - 32), by simp, ?_⟩
    simp only [isAsciiUpper, hcn, Bool.and_eq_true, decide_eq_true_eq]
    omega

/-- No character of the sanitized normalized comment is uppercase. -/
theorem sanitized_no_upper {comment : List Char} {d : Char}
    (hd : d ∈ remove_all_whitespace (normalize_fancy_text comment)) :
    isAsciiUpper d = false := by
  have hmem : d ∈ normalize_fancy_text comment := (List.mem_filter.mp hd).1
  have hst := mem_normalize_stable hmem
  simp only [stableChar, Bool.and_eq_true, Bool.not_eq_true'] at hst
  exact hst.2

/-- Whatever the parse outcome, the provider was invoked on the scan-missed
path. -/
theorem afterCall_called (svc : Service) (payload : Json)
    (kws : List (List Char × ℚ)) : (afterCall svc payload kws).2.2 = true := by
  unfold afterCall
  cases hp : parseResponse svc payload with
  | error e => rfl
  | ok resp => rfl

theorem afterScan_called (svc : Service) (provider : Except CustomErr Json)
    (kws : List (List Char × ℚ)) : (afterScan svc provider kws).2.2 = true := by
  cases provider with
  | error e => rfl
  | ok payload => exact afterCall_called svc payload kws

/-- The scan test of analyzer.rs line 90 can never succeed for a keyword
containing an ASCII letter: the upper-cased keyword contains an uppercase
letter while the normalized comment is lowercased. -/
theorem scan_no_match {kw : List Char} (comment : List Char)
    (hal : ∃ c ∈ kw, isAsciiAlpha c = true) :
    containsSub (remove_all_whitespace (normalize_fancy_text comment))
      (toUpperStr kw) = false := by
  by_contra hcs
  rw [Bool.not_eq_false] at hcs
  obtain ⟨c, hc, hca⟩ := hal
  obtain ⟨d, hdu, hupper⟩ := upperChar_upper hca
  have hdmem : d ∈ toUpperStr kw := List.mem_flatMap.mpr ⟨c, hc, hdu⟩
  have hdh := containsSub_mem hcs d hdmem
  have hno := sanitized_no_upper hdh
  rw [hno] at hupper
  exact absurd hupper (by simp)

/-- C1: the keyword short-circuit is dead for every keyword containing an
ASCII letter — the scan compares the upper-cased keyword against the
lowercased (whitespace-stripped) normalized comment, so it never matches, and
`analyze_comment` always proceeds to the provider. -/
theorem C1_keyword_scan_dead (kws : List (List Char × ℚ)) (comment : List Char)
    (halpha : ∀ p ∈ kws, ∃ c ∈ p.1, isAsciiAlpha c = true) :
    firstHit kws (remove_all_whitespace (normalize_fancy_text comment)) = none ∧
    ∀ (svc : Service) (provider : Except CustomErr Json),
      (analyze_comment svc provider kws comment).2.2 = true := by
  have hmain : firstHit kws
      (remove_all_whitespace (normalize_fancy_text comment)) = none := by
    induction kws with
    | nil => rfl
    | cons p t ih =>
      obtain ⟨k, conf⟩ := p
      have hno := scan_no_match comment (halpha (k, conf) (List.mem_cons_self _ _))
      simp only [firstHit, hno]
      exact ih (fun q hq => halpha q (List.mem_cons_of_mem _ hq))
  refine ⟨hmain, fun svc provider => ?_⟩
  simp only [analyze_comment, hmain]
  exact afterScan_called svc provider kws

/-- Witness for C1 at the spec's own scenario: keyword index ("spamword",
0.9), comment "spamword" — the scan misses and the provider is invoked. -/
theorem C1_keyword_scan_dead_witness :
    firstHit [("spamword".toList, (9 : ℚ)/10)]
      (remove_all_whitespace (normalize_fancy_text ("spamword".toList))) = none ∧
    (analyze_comment .deepseek (.error .transport)
      [("spamword".toList, (9 : ℚ)/10)] ("spamword".toList)).2.2 = true :=
  ⟨(C1_keyword_scan_dead [("spamword".toList, (9 : ℚ)/10)] ("spamword".toList)
      (by decide)).1,
   (C1_keyword_scan_dead [("spamword".toList, (9 : ℚ)/10)] ("spamword".toList)
      (by decide)).2 .deepseek (.error .transport)⟩

/-! ### Claim C3: the cache lock is held across the provider call -/

/-- C3: in every run of the handler each provider-call event happens while
the result-cache mutex is held (the `MutexGuard` of main.rs line 63 lives
until the handler returns, across the awaited call of lines 71-73), and a
cache-missing request does perform a provider call, so the lock is held
during the in-flight provider call. -/
theorem C3_provider_call_holds_cache_lock :
    (∀ (svc : Service) (digest : List Char → List Char)
        (provider : Except CustomErr Json) (st : ServerState)
        (comment : List Char),
      callsWhileHeld (analyze svc digest provider st comment).2.2.2 false
        = true) ∧
    (analyze .deepseek id (.error .transport) ⟨[], []⟩ ['x']).2.2.2
      = [Ev.lockAcquire, Ev.cacheGet, Ev.provCall, Ev.lockRelease] := by
  refine ⟨?_, by decide⟩
  intro svc digest provider st comment
  unfold analyze
  cases ha : assoc st.resultCache (hash_comment digest comment) with
  | some r => rfl
  | none =>
    cases hac : analyze_comment svc provider st.kwCache comment with
    | mk res rest =>
      obtain ⟨kw2, called⟩ := rest
      cases res with
      | ok resp => cases called <;> rfl
      | error e => cases called <;> rfl

/-! ### Claim C4: admission control -/

/-- Phases of one request task: not started; holding the cache mutex before
the call; suspended inside the provider call (the guard of main.rs line 63 is
still alive); finished (guard dropped). -/
inductive Phase : Type
  | idle
  | locked
  | calling
  | fin
deriving DecidableEq, Repr

/-- Interleaving state of concurrent handler tasks: the mutex holder, and
each task's phase. -/
structure Sys : Type where
  holder : Option Nat
  phase : Nat → Phase

/-- Initial state: lock free, every task idle. -/
def Sys.start : Sys := ⟨none, fun _ => .idle⟩

/-- Interleaving semantics of concurrent `analyze` handlers, following the
per-run event order established for C3: a task acquires the exclusive cache
mutex, may then enter the provider call while still holding it, and releases
it only when the handler returns (with or without having called). -/
inductive SysStep : Sys → Sys → Prop
  | acquire (s : Sys) (i : Nat) (hh : s.holder = none) (hp : s.phase i = .idle) :
      SysStep s ⟨some i, Function.update s.phase i .locked⟩
  | beginCall (s : Sys) (i : Nat) (hh : s.holder = some i)
      (hp : s.phase i = .locked) :
      SysStep s ⟨s.holder, Function.update s.phase i .calling⟩
  | finish (s : Sys) (i : Nat) (hh : s.holder = some i)
      (hp : s.phase i = .locked ∨ s.phase i = .calling) :
      SysStep s ⟨none, Function.update s.phase i .fin⟩

/-- Reachability from the initial state. -/
def SysReach (s : Sys) : Prop := Relation.ReflTransGen SysStep Sys.start s

/-- Lock-holding invariant: a task that is locked or calling is the mutex
holder. -/
def SysInv (s : Sys) : Prop :=
  ∀ i, (s.phase i = .locked ∨ s.phase i = .calling) → s.holder = some i

theorem sysInv_of_reach {s : Sys} (h : SysReach s) : SysInv s := by
  induction h with
  | refl =>
    intro i hi
    rcases hi with h' | h' <;> simp [Sys.start] at h'
  | tail hab hbc ih =>
    cases hbc with
    | acquire i hh hp =>
      intro j hj
      dsimp only at hj ⊢
      by_cases hij : j = i
      · subst hij
        rfl
      · rw [Function.update_noteq hij] at hj
        have hb := ih j hj
        rw [hh] at hb
        exact absurd hb (by simp)
    | beginCall i hh hp =>
      intro j hj
      dsimp only at hj ⊢
      by_cases hij : j = i
      · subst hij
        exact hh
      · rw [Function.update_noteq hij] at hj
        exact ih j hj
    | finish i hh hp =>
      intro j hj
      dsimp only at hj ⊢
      by_cases hij : j = i
      · subst hij
        rw [Function.update_same] at hj
        rcases hj with h' | h' <;> simp at h'
      · rw [Function.update_noteq hij] at hj
        have hb := ih j hj
        rw [hh] at hb
        injection hb with hb
        exact absurd hb.symm hij

/-- C4 amended: the code has no permit pool; the sole admission control on
outbound provider calls is the result-cache mutex, which is held across the
call, so at most one request can be in the Calling state at any time. -/
theorem C4_mutex_bounds_calls {s : Sys} (h : SysReach s) :
    ∀ i j, s.phase i = .calling → s.phase j = .calling → i = j := by
  intro i j hi hj
  have hinv := sysInv_of_reach h
  have h1 := hinv i (Or.inr hi)
  have h2 := hinv j (Or.inr hj)
  rw [h1] at h2
  injection h2

/-- C4 counterexample: the claimed permit-pool design with capacity N = 2
admits two requests simultaneously in the Calling state; under the code's
semantics the state with tasks 0 and 1 both calling is unreachable. -/
theorem C4_two_concurrent_calls_unreachable :
    ¬ SysReach ⟨some 0, fun n => if n ≤ 1 then Phase.calling else Phase.idle⟩ := by
  intro h
  have hinv := sysInv_of_reach h
  have h0 := hinv 0 (Or.inr (by simp))
  have h1 := hinv 1 (Or.inr (by simp))
  rw [h0] at h1
  injection h1 with h1
  exact absurd h1 (by simp)

/-- Witness for C4's amended theorem at a concrete reachable state: after
task 0 acquires the mutex and begins its call, the reached state has task 0
calling, and the theorem applies at tasks 0 and 0. -/
theorem C4_mutex_bounds_calls_witness :
    SysReach ⟨some 0, Function.update
        (Function.update (Sys.start).phase 0 Phase.locked) 0 Phase.calling⟩ ∧
    (⟨some 0, Function.update
        (Function.update (Sys.start).phase 0 Phase.locked) 0 Phase.calling⟩
      : Sys).phase 0 = Phase.calling ∧
    (0 : Nat) = 0 := by
  have s1 : SysStep Sys.start
      ⟨some 0, Function.update (Sys.start).phase 0 Phase.locked⟩ :=
    SysStep.acquire Sys.start 0 rfl rfl
  have s2 : SysStep
      ⟨some 0, Function.update (Sys.start).phase 0 Phase.locked⟩
      ⟨some 0, Function.update
        (Function.update (Sys.start).phase 0 Phase.locked) 0 Phase.calling⟩ :=
    SysStep.beginCall _ 0 rfl (by simp [Function.update])
  have hreach : SysReach ⟨some 0, Function.update
      (Function.update (Sys.start).phase 0 Phase.locked) 0 Phase.calling⟩ :=
    Relation.ReflTransGen.head s1 (Relation.ReflTransGen.single s2)
  have hph : (⟨some 0, Function.update
      (Function.update (Sys.start).phase 0 Phase.locked) 0 Phase.calling⟩
        : Sys).phase 0 = Phase.calling := by
    simp [Function.update]
  exact ⟨hreach, hph, C4_mutex_bounds_calls hreach 0 0 hph hph⟩

/-- Modelled from the spec: the Dispatcher permit-pool design of spec §4.3
and §4.4 (absent from the source) — a counted pool of permits is the sole
admission control; entering `Calling` consumes a permit, finishing returns
it. -/
structure PermitSys : Type where
  permits : Nat
  phase : Nat → Phase

/-- Modelled from the spec: initial permit-pool state with capacity `n`. -/
def PermitSys.start (n : Nat) : PermitSys := ⟨n, fun _ => .idle⟩

/-- Modelled from the spec: permit-pool transitions. -/
inductive PermitStep : PermitSys → PermitSys → Prop
  | beginCall (s : PermitSys) (i : Nat) (hp : 0 < s.permits)
      (hph : s.phase i = .idle) :
      PermitStep s ⟨s.permits - 1, Function.update s.phase i .calling⟩
  | finish (s : PermitSys) (i : Nat) (hph : s.phase i = .calling) :
      PermitStep s ⟨s.permits + 1, Function.update s.phase i .fin⟩

/-- Modelled from the spec: reachability under the permit-pool design. -/
def PermitReach (n : Nat) (s : PermitSys) : Prop :=
  Relation.ReflTransGen PermitStep (PermitSys.start n) s

/-- Under the spec's permit design with capacity 2, the state with tasks 0
and 1 both in `Calling` is reachable — the very state the source's mutex
makes unreachable. -/
theorem permit_two_calling_reachable :
    PermitReach 2 ⟨0, fun n => if n ≤ 1 then Phase.calling else Phase.idle⟩ := by
  have s1 : PermitStep (PermitSys.start 2)
      ⟨1, Function.update (fun _ => Phase.idle) 0 Phase.calling⟩ :=
    PermitStep.beginCall _ 0 (by decide) rfl
  have s2 : PermitStep
      ⟨1, Function.update (fun _ => Phase.idle) 0 Phase.calling⟩
      ⟨0, Function.update
        (Function.update (fun _ => Phase.idle) 0 Phase.calling) 1 Phase.calling⟩ :=
    PermitStep.beginCall _ 1 (by decide) (by simp [Function.update])
  have hfun : Function.update
      (Function.update (fun _ => Phase.idle) 0 Phase.calling) 1 Phase.calling
      = fun n => if n ≤ 1 then Phase.calling else Phase.idle := by
    funext n
    rcases n with _ | _ | m <;> simp [Function.update]
  have hst : (⟨0, Function.update
      (Function.update (fun _ => Phase.idle) 0 Phase.calling) 1 Phase.calling⟩
        : PermitSys)
      = ⟨0, fun n => if n ≤ 1 then Phase.calling else Phase.idle⟩ := by
    rw [hfun]
  rw [← hst]
  exact Relation.ReflTransGen.head s1 (Relation.ReflTransGen.single s2)
